import Mathlib

/-!
Verification of `parse_uncompressed_point` from `src/ec/suite_b/public_key.rs`
of the `ring` repository.

The decoder itself is translated directly from the source.  The capability
interface it consumes (`PublicKeyOps` / `CommonOps`, from the `ops` module)
and the byte-cursor discipline (the `untrusted` crate's `Input::read_all`,
`read_byte`, and the fixed-width consumption of `elem_parse`) are not part
of the given source tree; those are modelled from the spec, as marked on
each definition.

Bytes are modelled as natural numbers; a byte buffer is a `List Nat`.
`Result<T, ()>` is modelled as `Except Unit T`.
-/

namespace Ring

/-- Modelled from the spec: the `CommonOps` part of the curve capability
set (field squaring and multiplication supplied by the external
field-arithmetic module).  The field-element type `F` is opaque. -/
structure CommonOps (F : Type) where
  elem_sqr : F → F
  elem_mul : F → F → F

/-- Modelled from the spec: the `PublicKeyOps` capability set bundling the
curve constants `a`, `b`, field addition and equality, and the
field-element byte decoder.  `elem_parse_bytes` validates and decodes a
slice of exactly `elem_width` bytes into a canonical field element,
returning `none` for malformed or out-of-range encodings; its fixed
consumption width is the curve's field-element byte length. -/
structure PublicKeyOps (F : Type) where
  common : CommonOps F
  a : F
  b : F
  elem_add : F → F → F
  elems_are_equal : F → F → Bool
  elem_width : Nat
  elem_parse_bytes : List Nat → Option F

/-- Modelled from the spec: the cursor's `read_byte` operation.  The cursor
is represented by the list of bytes not yet consumed; reading one byte from
an exhausted cursor is a failure, never an out-of-bounds access. -/
def read_byte (bytes : List Nat) : Except Unit (Nat × List Nat) :=
  match bytes with
  | [] => .error ()
  | b :: rest => .ok (b, rest)

/-- Modelled from the spec: `ops.elem_parse` reads the next
`ops.elem_width` bytes from the cursor (failing if fewer remain) and
delegates their validation and decoding to the external field-element
decoder. -/
def elem_parse {F : Type} (ops : PublicKeyOps F) (bytes : List Nat) :
    Except Unit (F × List Nat) :=
  if ops.elem_width ≤ bytes.length then
    match ops.elem_parse_bytes (List.take ops.elem_width bytes) with
    | some v => .ok (v, List.drop ops.elem_width bytes)
    | none => .error ()
  else
    .error ()

/-- Modelled from the spec: the cursor's `read_all` operation.  It runs the
reader on the whole input and then requires that the cursor has consumed
the entire input with nothing left over. -/
def read_all {α : Type} (bytes : List Nat)
    (f : List Nat → Except Unit (α × List Nat)) : Except Unit α :=
  match f bytes with
  | .ok (v, rest) => if rest = [] then .ok v else .error ()
  | .error e => .error e

/-- The reader closure passed to `read_all` in `parse_uncompressed_point`:
read the tag byte, require it to be 4 ("uncompressed"), then parse the two
coordinates in order. -/
def parse_body {F : Type} (ops : PublicKeyOps F) (bytes : List Nat) :
    Except Unit ((F × F) × List Nat) :=
  match read_byte bytes with
  | .error e => .error e
  | .ok (encoding, bytes1) =>
    if encoding ≠ 4 then .error ()
    else
      match elem_parse ops bytes1 with
      | .error e => .error e
      | .ok (x, bytes2) =>
        match elem_parse ops bytes2 with
        | .error e => .error e
        | .ok (y, bytes3) => .ok ((x, y), bytes3)

/-- The right-hand side of the curve equation exactly as the source
computes it: `rhs = elem_sqr x; elem_add rhs a; rhs = elem_mul rhs x;
elem_add rhs b`, that is `(x² + a)·x + b`. -/
def curve_rhs {F : Type} (ops : PublicKeyOps F) (x : F) : F :=
  ops.elem_add (ops.common.elem_mul (ops.elem_add (ops.common.elem_sqr x) ops.a) x) ops.b

/-- The on-curve test performed by the source:
`elems_are_equal (elem_sqr y) ((x² + a)·x + b)`. -/
def on_curve {F : Type} (ops : PublicKeyOps F) (x y : F) : Bool :=
  ops.elems_are_equal (ops.common.elem_sqr y) (curve_rhs ops x)

/-- Translation of `parse_uncompressed_point`: decode the tag and the two
coordinates under `read_all`, then verify the curve equation and return
the coordinate pair, failing with the single content-free error `()`
otherwise. -/
def parse_uncompressed_point {F : Type} (ops : PublicKeyOps F)
    (input : List Nat) : Except Unit (F × F) :=
  match read_all input (parse_body ops) with
  | .error e => .error e
  | .ok (x, y) =>
    if on_curve ops x y then .ok (x, y) else .error ()

/-- The reference right-hand side of the short Weierstrass equation as the
spec writes it, `x³ + a·x + b`, over a commutative ring. -/
def curve_rhs_reference {R : Type} [CommRing R] (a b x : R) : R :=
  x ^ 3 + a * x + b

/-- A concrete curve instance used for witnesses: the curve
y² = x³ + x + 1 over the field with 7 elements, with one-byte
field-element encodings. -/
def demoOps : PublicKeyOps (ZMod 7) where
  common :=
    { elem_sqr := fun u => u * u
      elem_mul := fun u v => u * v }
  a := 1
  b := 1
  elem_add := fun u v => u + v
  elems_are_equal := fun u v => decide (u = v)
  elem_width := 1
  elem_parse_bytes := fun bytes =>
    match bytes with
    | [b] => if b < 7 then some ((b : Nat) : ZMod 7) else none
    | _ => none

/-- One-byte encoding of a field element of the demo curve. -/
def encDemo (z : ZMod 7) : List Nat := [z.val]

instance instDecidableEqExcept {ε α : Type} [DecidableEq ε] [DecidableEq α] :
    DecidableEq (Except ε α) := fun a b =>
  match a, b with
  | Except.error e, Except.error f =>
    if h : e = f then isTrue (congrArg Except.error h)
    else isFalse fun hh => h (Except.error.inj hh)
  | Except.error _, Except.ok _ => isFalse fun hh => Except.noConfusion hh
  | Except.ok _, Except.error _ => isFalse fun hh => Except.noConfusion hh
  | Except.ok v, Except.ok w =>
    if h : v = w then isTrue (congrArg Except.ok h)
    else isFalse fun hh => h (Except.ok.inj hh)

example : parse_uncompressed_point demoOps [4, 0, 1] = .ok (0, 1) := by decide
example : parse_uncompressed_point demoOps [4, 0, 2] = .error () := by decide
example : parse_uncompressed_point demoOps [0] = .error () := by decide
example : parse_uncompressed_point demoOps [4, 0] = .error () := by decide
example : parse_uncompressed_point demoOps [4, 0, 1, 0] = .error () := by decide

theorem elem_parse_ok_iff {F : Type} (ops : PublicKeyOps F) (bytes : List Nat)
    (v : F) (rest : List Nat) :
    elem_parse ops bytes = .ok (v, rest) ↔
      ops.elem_width ≤ bytes.length ∧
        ops.elem_parse_bytes (List.take ops.elem_width bytes) = some v ∧
        rest = List.drop ops.elem_width bytes := by
  unfold elem_parse
  by_cases hw : ops.elem_width ≤ bytes.length
  · rw [if_pos hw]
    cases hp : ops.elem_parse_bytes (List.take ops.elem_width bytes) with
    | none => simp [hp, hw]
    | some w =>
      simp only [Except.ok.injEq, Prod.mk.injEq, hp, hw, true_and,
        Option.some.injEq]
      constructor
      · rintro ⟨h1, h2⟩; exact ⟨h1, h2.symm⟩
      · rintro ⟨h1, h2⟩; exact ⟨h1, h2.symm⟩
  · rw [if_neg hw]
    simp [hw]

theorem elem_parse_error_of_no_ok {F : Type} (ops : PublicKeyOps F)
    (bytes : List Nat) (h : ∀ v rest, elem_parse ops bytes ≠ .ok (v, rest)) :
    elem_parse ops bytes = .error () := by
  cases hp : elem_parse ops bytes with
  | ok p => exact absurd hp (h p.1 p.2)
  | error e => cases e; rfl

theorem parse_body_cons_four {F : Type} (ops : PublicKeyOps F)
    (tail : List Nat) :
    parse_body ops (4 :: tail) =
      match elem_parse ops tail with
      | .error e => .error e
      | .ok (x, bytes2) =>
        match elem_parse ops bytes2 with
        | .error e => .error e
        | .ok (y, bytes3) => .ok ((x, y), bytes3) := by
  simp [parse_body, read_byte]

theorem parse_body_ok_iff {F : Type} (ops : PublicKeyOps F) (bytes : List Nat)
    (x y : F) (rest : List Nat) :
    parse_body ops bytes = .ok ((x, y), rest) ↔
      ∃ tail, bytes = 4 :: tail ∧
        ops.elem_width ≤ tail.length ∧
        ops.elem_parse_bytes (List.take ops.elem_width tail) = some x ∧
        ops.elem_width ≤ (List.drop ops.elem_width tail).length ∧
        ops.elem_parse_bytes
          (List.take ops.elem_width (List.drop ops.elem_width tail)) = some y ∧
        rest = List.drop ops.elem_width (List.drop ops.elem_width tail) := by
  cases bytes with
  | nil =>
    simp only [parse_body, read_byte]
    simp
  | cons b tail =>
    by_cases hb : b = 4
    · subst hb
      rw [parse_body_cons_four]
      constructor
      · intro h
        cases hx : elem_parse ops tail with
        | error e => simp only [hx] at h; exact absurd h (by simp)
        | ok p =>
          obtain ⟨x1, tail1⟩ := p
          simp only [hx] at h
          obtain ⟨hw1, hp1, rfl⟩ := (elem_parse_ok_iff ops tail x1 tail1).1 hx
          cases hy : elem_parse ops (List.drop ops.elem_width tail) with
          | error e => simp only [hy] at h; exact absurd h (by simp)
          | ok q =>
            obtain ⟨y1, tail2⟩ := q
            simp only [hy] at h
            obtain ⟨hw2, hp2, rfl⟩ :=
              (elem_parse_ok_iff ops (List.drop ops.elem_width tail) y1 tail2).1 hy
            simp only [Except.ok.injEq, Prod.mk.injEq] at h
            obtain ⟨⟨rfl, rfl⟩, rfl⟩ := h
            exact ⟨tail, rfl, hw1, hp1, hw2, hp2, rfl⟩
      · rintro ⟨tail2, htl, h1, h2, h3, h4, h5⟩
        obtain rfl : tail = tail2 := (List.cons.inj htl).2
        have hx : elem_parse ops tail = .ok (x, List.drop ops.elem_width tail) :=
          (elem_parse_ok_iff ops tail x _).2 ⟨h1, h2, rfl⟩
        have hy : elem_parse ops (List.drop ops.elem_width tail) =
            .ok (y, List.drop ops.elem_width (List.drop ops.elem_width tail)) :=
          (elem_parse_ok_iff ops _ y _).2 ⟨h3, h4, rfl⟩
        simp only [hx, hy, h5]
    · constructor
      · intro h
        simp only [parse_body, read_byte] at h
        rw [if_pos hb] at h
        exact absurd h (by simp)
      · rintro ⟨tail2, htl, -⟩
        exact absurd (List.cons.inj htl).1 hb

theorem read_all_ok {α : Type} (bytes : List Nat)
    (f : List Nat → Except Unit (α × List Nat)) (v : α) (rest : List Nat)
    (h : f bytes = .ok (v, rest)) :
    read_all bytes f = if rest = [] then .ok v else .error () := by
  simp [read_all, h]

theorem read_all_error {α : Type} (bytes : List Nat)
    (f : List Nat → Except Unit (α × List Nat)) (e : Unit)
    (h : f bytes = .error e) : read_all bytes f = .error e := by
  simp [read_all, h]

theorem parse_eq_of_body_ok {F : Type} (ops : PublicKeyOps F)
    (input : List Nat) (x y : F) (rest : List Nat)
    (h : parse_body ops input = .ok ((x, y), rest)) :
    parse_uncompressed_point ops input =
      if rest = [] then
        (if on_curve ops x y then .ok (x, y) else .error ())
      else .error () := by
  unfold parse_uncompressed_point
  rw [read_all_ok input (parse_body ops) (x, y) rest h]
  by_cases hr : rest = []
  · rw [if_pos hr, if_pos hr]
  · rw [if_neg hr, if_neg hr]

theorem parse_eq_of_body_error {F : Type} (ops : PublicKeyOps F)
    (input : List Nat) (e : Unit)
    (h : parse_body ops input = .error e) :
    parse_uncompressed_point ops input = .error e := by
  unfold parse_uncompressed_point
  rw [read_all_error input (parse_body ops) e h]

theorem parse_ok_iff {F : Type} (ops : PublicKeyOps F) (input : List Nat)
    (x y : F) :
    parse_uncompressed_point ops input = .ok (x, y) ↔
      ∃ xb yb, input = 4 :: (xb ++ yb) ∧
        xb.length = ops.elem_width ∧ yb.length = ops.elem_width ∧
        ops.elem_parse_bytes xb = some x ∧ ops.elem_parse_bytes yb = some y ∧
        on_curve ops x y = true := by
  constructor
  · intro h
    cases hb : parse_body ops input with
    | error e =>
      rw [parse_eq_of_body_error ops input e hb] at h
      exact absurd h (by simp)
    | ok p =>
      obtain ⟨⟨x1, y1⟩, rest⟩ := p
      rw [parse_eq_of_body_ok ops input x1 y1 rest hb] at h
      obtain ⟨tail, rfl, hw1, hp1, hw2, hp2, hrest⟩ :=
        (parse_body_ok_iff ops input x1 y1 rest).1 hb
      by_cases hr : rest = []
      · rw [if_pos hr] at h
        by_cases hc : on_curve ops x1 y1
        · rw [if_pos hc] at h
          obtain ⟨rfl, rfl⟩ : x1 = x ∧ y1 = y := by
            have h2 := Except.ok.inj h
            exact ⟨congrArg Prod.fst h2, congrArg Prod.snd h2⟩
          have htlen : 2 * ops.elem_width ≤ tail.length := by
            rw [List.length_drop] at hw2; omega
          have hdlen : tail.length ≤ 2 * ops.elem_width := by
            have h3 := congrArg List.length (hr ▸ hrest).symm
            rw [List.drop_drop, List.length_drop] at h3
            simp only [List.length_nil] at h3
            omega
          refine ⟨List.take ops.elem_width tail,
            List.take ops.elem_width (List.drop ops.elem_width tail),
            ?_, ?_, ?_, hp1, hp2, hc⟩
          · have h4 : List.take ops.elem_width (List.drop ops.elem_width tail) =
                List.drop ops.elem_width tail := by
              apply List.take_of_length_le
              rw [List.length_drop]; omega
            rw [h4, List.take_append_drop]
          · rw [List.length_take]; omega
          · rw [List.length_take, List.length_drop]; omega
        · rw [if_neg hc] at h; exact absurd h (by simp)
      · rw [if_neg hr] at h; exact absurd h (by simp)
  · rintro ⟨xb, yb, rfl, hxl, hyl, hpx, hpy, hc⟩
    have hxb : List.take ops.elem_width (xb ++ yb) = xb := by
      rw [← hxl, List.take_left]
    have hyb : List.drop ops.elem_width (xb ++ yb) = yb := by
      rw [← hxl, List.drop_left]
    have hybt : List.take ops.elem_width yb = yb := by
      rw [← hyl, List.take_length]
    have hybd : List.drop ops.elem_width yb = [] := by
      rw [← hyl, List.drop_length]
    have hbody : parse_body ops (4 :: (xb ++ yb)) = .ok ((x, y), []) := by
      rw [parse_body_ok_iff]
      refine ⟨xb ++ yb, rfl, ?_, ?_, ?_, ?_, ?_⟩
      · simp [hxl]
      · rw [hxb, hpx]
      · rw [hyb, hyl]
      · rw [hyb, hybt, hpy]
      · rw [hyb, hybd]
    rw [parse_eq_of_body_ok ops _ x y [] hbody]
    simp [hc]

theorem parse_error_or_ok {F : Type} (ops : PublicKeyOps F) (input : List Nat) :
    (∃ p, parse_uncompressed_point ops input = .ok p) ∨
      parse_uncompressed_point ops input = .error () := by
  cases h : parse_uncompressed_point ops input with
  | ok p => exact Or.inl ⟨p, rfl⟩
  | error e => cases e; exact Or.inr rfl

theorem parse_ok_wellformed_aux {F : Type} (ops : PublicKeyOps F)
    (xb yb : List Nat) (x y : F)
    (hxl : xb.length = ops.elem_width) (hyl : yb.length = ops.elem_width)
    (hpx : ops.elem_parse_bytes xb = some x)
    (hpy : ops.elem_parse_bytes yb = some y)
    (hc : on_curve ops x y = true) :
    parse_uncompressed_point ops (4 :: (xb ++ yb)) = .ok (x, y) :=
  (parse_ok_iff ops (4 :: (xb ++ yb)) x y).2
    ⟨xb, yb, rfl, hxl, hyl, hpx, hpy, hc⟩

/-- C1: whenever `parse_uncompressed_point` returns `Ok (x, y)`, the
coordinates satisfy the curve equation as judged by the supplied field
equality: `square y` is field-equal to `(square x + a) * x + b`. -/
theorem parse_ok_satisfies_curve_equation {F : Type} (ops : PublicKeyOps F)
    (input : List Nat) (x y : F)
    (h : parse_uncompressed_point ops input = .ok (x, y)) :
    ops.elems_are_equal (ops.common.elem_sqr y)
      (ops.elem_add
        (ops.common.elem_mul (ops.elem_add (ops.common.elem_sqr x) ops.a) x)
        ops.b) = true := by
  obtain ⟨xb, yb, -, -, -, -, -, hc⟩ := (parse_ok_iff ops input x y).1 h
  simpa [on_curve, curve_rhs] using hc

theorem parse_ok_satisfies_curve_equation_witness :
    demoOps.elems_are_equal (demoOps.common.elem_sqr 1)
      (demoOps.elem_add
        (demoOps.common.elem_mul
          (demoOps.elem_add (demoOps.common.elem_sqr 0) demoOps.a) 0)
        demoOps.b) = true :=
  parse_ok_satisfies_curve_equation demoOps [4, 0, 1] 0 1 (by decide)

/-- C2: any input whose length differs from `1 + 2 * elem_width` is
rejected with the error, regardless of its content. -/
theorem parse_wrong_length_error {F : Type} (ops : PublicKeyOps F)
    (input : List Nat) (h : input.length ≠ 1 + 2 * ops.elem_width) :
    parse_uncompressed_point ops input = .error () := by
  rcases parse_error_or_ok ops input with ⟨⟨x, y⟩, hok⟩ | herr
  · exfalso
    obtain ⟨xb, yb, hin, hxl, hyl, -, -, -⟩ := (parse_ok_iff ops input x y).1 hok
    apply h
    rw [hin]
    simp only [List.length_cons, List.length_append, hxl, hyl]
    omega
  · exact herr

theorem parse_wrong_length_error_witness :
    parse_uncompressed_point demoOps [4, 0] = .error () :=
  parse_wrong_length_error demoOps [4, 0] (by decide)

/-- C3: any input that is empty or whose first byte is not the
uncompressed tag 4 (0x04) is rejected with the error; in particular the
single zero byte encoding the point at infinity is rejected. -/
theorem parse_bad_tag_error {F : Type} (ops : PublicKeyOps F)
    (input : List Nat) (h : input.head? ≠ some 4) :
    parse_uncompressed_point ops input = .error () := by
  rcases parse_error_or_ok ops input with ⟨⟨x, y⟩, hok⟩ | herr
  · exfalso
    obtain ⟨xb, yb, hin, -⟩ := (parse_ok_iff ops input x y).1 hok
    apply h
    rw [hin]
    rfl
  · exact herr

theorem parse_bad_tag_error_witness :
    parse_uncompressed_point demoOps [0] = .error () :=
  parse_bad_tag_error demoOps [0] (by decide)

/-- C4: a syntactically well-formed input (tag 4, both coordinates decoded
by the field-element decoder, exact total length) whose coordinates fail
the curve equation is rejected with the error. -/
theorem parse_off_curve_error {F : Type} (ops : PublicKeyOps F)
    (xb yb : List Nat) (x y : F)
    (hxl : xb.length = ops.elem_width) (hyl : yb.length = ops.elem_width)
    (hpx : ops.elem_parse_bytes xb = some x)
    (hpy : ops.elem_parse_bytes yb = some y)
    (hc : ops.elems_are_equal (ops.common.elem_sqr y)
      (ops.elem_add
        (ops.common.elem_mul (ops.elem_add (ops.common.elem_sqr x) ops.a) x)
        ops.b) = false) :
    parse_uncompressed_point ops (4 :: (xb ++ yb)) = .error () := by
  rcases parse_error_or_ok ops (4 :: (xb ++ yb)) with ⟨⟨x2, y2⟩, hok⟩ | herr
  · exfalso
    obtain ⟨xb2, yb2, hin, hxl2, hyl2, hpx2, hpy2, hc2⟩ :=
      (parse_ok_iff ops _ x2 y2).1 hok
    have happ : xb ++ yb = xb2 ++ yb2 := (List.cons.inj hin).2
    have hlen : xb.length = xb2.length := by rw [hxl, hxl2]
    obtain ⟨rfl, rfl⟩ := List.append_inj happ hlen
    rw [hpx] at hpx2
    rw [hpy] at hpy2
    obtain rfl : x = x2 := Option.some.inj hpx2
    obtain rfl : y = y2 := Option.some.inj hpy2
    have hc3 : on_curve ops x y = true := hc2
    rw [on_curve, curve_rhs, hc] at hc3
    exact Bool.false_ne_true hc3
  · exact herr

theorem parse_off_curve_error_witness :
    parse_uncompressed_point demoOps [4, 0, 2] = .error () :=
  parse_off_curve_error demoOps [0] [2] 0 2 rfl rfl (by decide) (by decide)
    (by decide)

/-- C5: the right-hand side actually computed by the source,
`(x² + a)·x + b` via `curve_rhs`, agrees with the reference expression
`x³ + a·x + b` for every field element, whenever the supplied square, add
and multiply operations are those of a commutative ring. -/
theorem curve_rhs_eq_reference {R : Type} [CommRing R] (ops : PublicKeyOps R)
    (hadd : ∀ u v, ops.elem_add u v = u + v)
    (hmul : ∀ u v, ops.common.elem_mul u v = u * v)
    (hsqr : ∀ u, ops.common.elem_sqr u = u * u) (x : R) :
    curve_rhs ops x = curve_rhs_reference ops.a ops.b x := by
  simp only [curve_rhs, curve_rhs_reference, hadd, hmul, hsqr]
  ring

theorem curve_rhs_eq_reference_witness :
    curve_rhs demoOps 3 = curve_rhs_reference demoOps.a demoOps.b 3 :=
  curve_rhs_eq_reference demoOps (fun _ _ => rfl) (fun _ _ => rfl)
    (fun _ => rfl) 3

/-- C6: every rejection, whatever its cause, produces one and the same
content-free error value, so any two failing calls return identical
results and no failure cause is distinguishable from another by the
returned error. -/
theorem parse_single_error_value {F : Type} (ops : PublicKeyOps F)
    (input input2 : List Nat)
    (h : ∀ p, parse_uncompressed_point ops input ≠ .ok p)
    (h2 : ∀ p, parse_uncompressed_point ops input2 ≠ .ok p) :
    parse_uncompressed_point ops input = parse_uncompressed_point ops input2 := by
  rcases parse_error_or_ok ops input with ⟨p, hp⟩ | he
  · exact absurd hp (h p)
  · rcases parse_error_or_ok ops input2 with ⟨p, hp⟩ | he2
    · exact absurd hp (h2 p)
    · rw [he, he2]

theorem parse_single_error_value_witness :
    parse_uncompressed_point demoOps [0] =
      parse_uncompressed_point demoOps [4, 0] :=
  parse_single_error_value demoOps [0] [4, 0] (by decide) (by decide)

/-- C7: `parse_uncompressed_point` is deterministic — for a fixed
capability set and a fixed input, any two results of the call are equal. -/
theorem parse_deterministic {F : Type} (ops : PublicKeyOps F)
    (input : List Nat) (r1 r2 : Except Unit (F × F))
    (h1 : parse_uncompressed_point ops input = r1)
    (h2 : parse_uncompressed_point ops input = r2) : r1 = r2 := by
  rw [← h1, ← h2]

theorem parse_deterministic_witness :
    (Except.ok ((0 : ZMod 7), (1 : ZMod 7)) : Except Unit (ZMod 7 × ZMod 7)) =
      Except.ok (0, 1) :=
  parse_deterministic demoOps [4, 0, 1] _ _ (by decide) (by decide)

/-- C8: round-trip — encoding a point (x, y) of the curve as the tag 4
followed by the fixed-width encodings of x and y and decoding it returns
`Ok (x, y)`, provided the field-element decoder inverts the fixed-width
encoding and (x, y) passes the curve equation test. -/
theorem parse_round_trip {F : Type} (ops : PublicKeyOps F)
    (enc : F → List Nat)
    (hlen : ∀ z, (enc z).length = ops.elem_width)
    (hinv : ∀ z, ops.elem_parse_bytes (enc z) = some z)
    (x y : F)
    (hcurve : ops.elems_are_equal (ops.common.elem_sqr y)
      (ops.elem_add
        (ops.common.elem_mul (ops.elem_add (ops.common.elem_sqr x) ops.a) x)
        ops.b) = true) :
    parse_uncompressed_point ops (4 :: (enc x ++ enc y)) = .ok (x, y) :=
  parse_ok_wellformed_aux ops (enc x) (enc y) x y (hlen x) (hlen y)
    (hinv x) (hinv y) (by simpa [on_curve, curve_rhs] using hcurve)

theorem parse_round_trip_witness :
    parse_uncompressed_point demoOps (4 :: (encDemo 0 ++ encDemo 1)) =
      .ok (0, 1) :=
  parse_round_trip demoOps encDemo (fun _ => rfl) (by decide) 0 1 (by decide)

/-- C9: on success the returned pair is exactly the pair produced by the
two field-element decoding calls, in order — x from the bytes immediately
after the tag, y from the bytes after x; the curve-equation arithmetic
does not alter them. -/
theorem parse_returns_parsed_pair {F : Type} (ops : PublicKeyOps F)
    (xb yb : List Nat) (x y : F)
    (hxl : xb.length = ops.elem_width) (hyl : yb.length = ops.elem_width)
    (hpx : ops.elem_parse_bytes xb = some x)
    (hpy : ops.elem_parse_bytes yb = some y)
    (hc : on_curve ops x y = true) :
    parse_uncompressed_point ops (4 :: (xb ++ yb)) = .ok (x, y) :=
  parse_ok_wellformed_aux ops xb yb x y hxl hyl hpx hpy hc

theorem parse_returns_parsed_pair_witness :
    parse_uncompressed_point demoOps [4, 0, 1] = .ok (0, 1) :=
  parse_returns_parsed_pair demoOps [0] [1] 0 1 rfl rfl (by decide)
    (by decide) (by decide)

/-- C10: `parse_uncompressed_point` is total over arbitrary inputs: for
every capability set and every byte sequence it returns either an `Ok`
pair or the error — byte access goes through the checked cursor
operations, which fail with the error rather than faulting. -/
theorem parse_total {F : Type} (ops : PublicKeyOps F) (input : List Nat) :
    (∃ p, parse_uncompressed_point ops input = .ok p) ∨
      parse_uncompressed_point ops input = .error () :=
  parse_error_or_ok ops input

end Ring
